import Mathlib

/-!
Verification of the cooperative cancellation and dispatch subsystem of
`base-rs` (src/trace.rs, src/channel.rs, src/thread.rs), shallowly
embedded in Lean 4.

Modelling conventions:
* `Time` is modelled as `Nat` (milliseconds). The repository's
  `src/time.rs` is not available; the spec's Clock contract only needs a
  monotonic instant with ordering and subtraction, which `Nat` provides.
  "Now" is passed explicitly to every time-dependent operation.
* The `Arc<AtomicBool>` liveness flag of an `Alive` token is modelled by
  a flag identifier (`flagId : Nat`) together with an explicit flag
  store `σ : Nat → Bool` mapping identifiers to current flag values;
  sharing the `Arc` (as `Clone` does) is sharing the identifier, while
  `fork` allocates a fresh identifier.
* mpsc channels appear only through the operations the code uses:
  `try_send` on a capacity-1 sync channel (Dispatcher), `send` on an
  unbounded channel (Boardcast), and `recv_timeout` (Alive::recv,
  RecvIter).  Channel/subscriber state is made explicit as data.
-/

/-- `Alive` (src/trace.rs lines 12-17): an `Arc<AtomicBool>` liveness
flag (here: its identifier into the flag store), an optional parent
token, and an optional absolute deadline. -/
inductive Alive where
  | mk (flagId : Nat) (parent : Option Alive) (deadline : Option Nat)

/-- The flag store: current value of each atomic flag, by identifier. -/
def FlagStore := Nat → Bool

def Alive.flagId : Alive → Nat
  | .mk f _ _ => f

def Alive.parent : Alive → Option Alive
  | .mk _ p _ => p

/-- `Alive::deadline` (src/trace.rs lines 34-36). -/
def Alive.deadline : Alive → Option Nat
  | .mk _ _ d => d

/-- `Alive::new` (src/trace.rs lines 26-32): fresh flag (initially true
in the store used with it), no parent, no deadline. -/
def Alive.new (fresh : Nat) : Alive := .mk fresh none none

/-- `Alive::is_alive` (src/trace.rs lines 42-55): false when the own
flag is false; false when a deadline exists and `now >= deadline`;
otherwise recurse into the parent when there is one, else true. -/
def Alive.is_alive (σ : FlagStore) (now : Nat) : Alive → Bool
  | .mk f p d =>
    if !(σ f) then false
    else if (match d with | some dl => decide (now ≥ dl) | none => false) then false
    else match p with
      | some parent => parent.is_alive σ now
      | none => true

/-- `Alive::shutdown` (src/trace.rs lines 57-59): store `false` into
the token's own flag; the rest of the store is untouched. -/
def Alive.shutdown (σ : FlagStore) (a : Alive) : FlagStore :=
  fun i => if i = a.flagId then false else σ i

/-- `Alive::fork_with_deadline` (src/trace.rs lines 70-79): fresh flag,
parent := self, deadline := min of the parent's deadline (when present)
and the supplied one. -/
def Alive.fork_with_deadline (a : Alive) (fresh : Nat) (deadline : Nat) : Alive :=
  .mk fresh (some a)
    (some (match a.deadline with
      | some d => min d deadline
      | none => deadline))

/-- `Alive::fork_with_timeout` (src/trace.rs lines 66-68):
`fork_with_deadline(now + dur)`. -/
def Alive.fork_with_timeout (a : Alive) (fresh : Nat) (now dur : Nat) : Alive :=
  a.fork_with_deadline fresh (now + dur)

/-- `Alive::fork` (src/trace.rs lines 81-87): fresh flag, parent :=
self, deadline inherited unchanged. -/
def Alive.fork (a : Alive) (fresh : Nat) : Alive :=
  .mk fresh (some a) a.deadline

/-- `#[derive(Clone)]` on `Alive` (src/trace.rs line 12): a field-wise
clone; `Arc::clone` shares the same atomic flag, so the clone carries
the same `flagId` — in the embedding the clone is the same value. -/
def Alive.clone (a : Alive) : Alive := a

/-- The flag identifiers appearing along a token's ancestor chain
(its own flag first). -/
def Alive.chainFlags : Alive → List Nat
  | .mk f p _ =>
    f :: (match p with
      | some parent => parent.chainFlags
      | none => [])

/-- The spec's liveness formula, written from its words: own flag true
AND (no deadline or now strictly before it) AND (no parent or parent
alive), recomputed over the whole chain. -/
def specIsAlive (σ : FlagStore) (now : Nat) : Alive → Bool
  | .mk f p d =>
    σ f
    && (match d with | none => true | some dl => decide (now < dl))
    && (match p with | none => true | some parent => specIsAlive σ now parent)

/-- Structural induction for `Alive` (the derived eliminator of the
nested inductive is unusable directly). -/
theorem Alive.chainInduction (motive : Alive → Prop)
    (base : ∀ f d, motive (.mk f none d))
    (step : ∀ f q d, motive q → motive (.mk f (some q) d)) :
    ∀ a, motive a
  | .mk f none d => base f d
  | .mk f (some q) d => step f q d (Alive.chainInduction motive base step q)

theorem is_alive_eq_spec (σ : FlagStore) (now : Nat) (a : Alive) :
    a.is_alive σ now = specIsAlive σ now a := by
  induction a using Alive.chainInduction with
  | base f d =>
    cases d with
    | none => simp [Alive.is_alive, specIsAlive]
    | some dl =>
      simp only [Alive.is_alive, specIsAlive]
      by_cases hσ : σ f <;> by_cases hd : now ≥ dl <;>
        simp_all [Nat.not_le, Nat.not_lt]
  | step f q d ih =>
    cases d with
    | none =>
      simp only [Alive.is_alive, specIsAlive]
      by_cases hσ : σ f <;> simp_all
    | some dl =>
      simp only [Alive.is_alive, specIsAlive]
      by_cases hσ : σ f <;> by_cases hd : now ≥ dl <;>
        simp_all [Nat.not_le, Nat.not_lt]

/-- C1: `is_alive` is true iff the own flag is true AND (no deadline or
now strictly before the deadline) AND (no parent or the parent is
alive); the result is the recursive conjunction over the whole ancestor
chain, recomputed from the flag store and `now` on each call, and a
deadline exactly equal to `now` counts as dead. -/
theorem alive_is_alive_spec (σ : FlagStore) (now : Nat) (f : Nat)
    (p : Option Alive) (d : Option Nat) :
    (Alive.mk f p d).is_alive σ now
      = (σ f
         && (match d with | none => true | some dl => decide (now < dl))
         && (match p with | none => true | some parent => parent.is_alive σ now))
    ∧ (Alive.mk f p (some now)).is_alive σ now = false := by
  constructor
  · rw [is_alive_eq_spec]
    cases p with
    | none => simp [specIsAlive]
    | some parent => simp [specIsAlive, is_alive_eq_spec]
  · rw [is_alive_eq_spec]
    cases p <;> simp [specIsAlive]

theorem chainFlags_self_mem (a : Alive) : a.flagId ∈ a.chainFlags := by
  cases a with
  | mk f p d => cases p <;> simp [Alive.chainFlags, Alive.flagId]

theorem is_alive_false_of_chain_flag (σ : FlagStore) (now : Nat) (a : Alive)
    (i : Nat) (hi : i ∈ a.chainFlags) (hσ : σ i = false) :
    a.is_alive σ now = false := by
  rw [is_alive_eq_spec]
  induction a using Alive.chainInduction with
  | base f d =>
    simp only [Alive.chainFlags, List.mem_singleton] at hi
    subst hi
    simp [specIsAlive, hσ]
  | step f q d ih =>
    simp only [Alive.chainFlags, List.mem_cons] at hi
    rcases hi with hi | hi
    · subst hi
      simp [specIsAlive, hσ]
    · have := ih hi
      simp [specIsAlive, this]

theorem is_alive_congr (σ σ' : FlagStore) (now : Nat) (a : Alive)
    (h : ∀ i ∈ a.chainFlags, σ' i = σ i) :
    a.is_alive σ' now = a.is_alive σ now := by
  rw [is_alive_eq_spec, is_alive_eq_spec]
  induction a using Alive.chainInduction with
  | base f d =>
    have hf := h f (by simp [Alive.chainFlags])
    simp [specIsAlive, hf]
  | step f q d ih =>
    have hf := h f (by simp [Alive.chainFlags])
    have hq : ∀ i ∈ q.chainFlags, σ' i = σ i := by
      intro i hiq
      exact h i (by simp [Alive.chainFlags, hiq])
    simp [specIsAlive, hf, ih hq]

theorem foldl_shutdown_false (σ : FlagStore) (ts : List Alive) (i : Nat)
    (h : σ i = false) : (ts.foldl Alive.shutdown σ) i = false := by
  induction ts generalizing σ with
  | nil => exact h
  | cons t ts ih =>
    apply ih
    simp only [Alive.shutdown]
    by_cases hit : i = t.flagId <;> simp [hit, h]

/-- C2: `shutdown` stores `false` into the token's own flag and touches
no other flag; it is idempotent; after it, any token whose ancestor
chain contains the shut-down token's flag (the token itself and every
descendant fork) is dead at every time and stays dead under any further
sequence of shutdowns; any token whose chain does not contain that flag
(the parent, sibling forks) keeps exactly the liveness it had. -/
theorem alive_shutdown_spec (σ : FlagStore) (t d x : Alive) (ts : List Alive)
    (now now2 i : Nat) (hi : i ≠ t.flagId)
    (hd : t.flagId ∈ d.chainFlags) (hx : t.flagId ∉ x.chainFlags) :
    Alive.shutdown σ t t.flagId = false
    ∧ Alive.shutdown σ t i = σ i
    ∧ Alive.shutdown (Alive.shutdown σ t) t = Alive.shutdown σ t
    ∧ d.is_alive (ts.foldl Alive.shutdown (Alive.shutdown σ t)) now = false
    ∧ x.is_alive (Alive.shutdown σ t) now2 = x.is_alive σ now2 := by
  refine ⟨by simp [Alive.shutdown], by simp [Alive.shutdown, hi], ?_, ?_, ?_⟩
  · funext j
    simp only [Alive.shutdown]
    by_cases hj : j = t.flagId <;> simp [hj]
  · apply is_alive_false_of_chain_flag _ _ _ t.flagId hd
    apply foldl_shutdown_false
    simp [Alive.shutdown]
  · apply is_alive_congr
    intro j hj
    have : j ≠ t.flagId := fun h => hx (h ▸ hj)
    simp [Alive.shutdown, this]

/-- Witness for C2 at a concrete configuration: root flag 0, token
`t` a fork with flag 1, descendant `d` a fork of `t` with flag 2, and
sibling `x` a fork of the root with flag 3. -/
theorem alive_shutdown_spec_witness :
    (2 ≠ (Alive.mk 1 (some (Alive.new 0)) none).flagId
     ∧ (Alive.mk 1 (some (Alive.new 0)) none).flagId
         ∈ (Alive.mk 2 (some (Alive.mk 1 (some (Alive.new 0)) none)) none).chainFlags
     ∧ (Alive.mk 1 (some (Alive.new 0)) none).flagId
         ∉ (Alive.mk 3 (some (Alive.new 0)) none).chainFlags)
    ∧ ((Alive.mk 3 (some (Alive.new 0)) none).is_alive
        (Alive.shutdown (fun _ => true) (Alive.mk 1 (some (Alive.new 0)) none)) 5
       = (Alive.mk 3 (some (Alive.new 0)) none).is_alive (fun _ => true) 5) := by
  refine ⟨⟨by decide, by decide, by decide⟩, ?_⟩
  exact (alive_shutdown_spec (fun _ => true) (Alive.mk 1 (some (Alive.new 0)) none)
    (Alive.mk 2 (some (Alive.mk 1 (some (Alive.new 0)) none)) none)
    (Alive.mk 3 (some (Alive.new 0)) none) [] 7 5 2
    (by decide) (by decide) (by decide)).2.2.2.2

/-- Extended-order comparison on optional deadlines, `none` meaning
"no deadline / infinite". -/
def deadlineLE : Option Nat → Option Nat → Prop
  | _, none => True
  | none, some _ => False
  | some a, some b => a ≤ b

/-- The spec's derived-deadline formula, written from its words: the
minimum of the parent's deadline — infinite if absent — and the supplied
one (the minimum of a finite value and infinity is the finite value). -/
def specChildDeadline : Option Nat → Nat → Nat
  | some parentDl, d => min parentDl d
  | none, d => d

/-- `b` is reachable from `a` by a (possibly empty) chain of `fork` /
`fork_with_deadline` / `fork_with_timeout` steps. -/
inductive ForkDesc : Alive → Alive → Prop
  | refl (a : Alive) : ForkDesc a a
  | fork (a b : Alive) (fresh : Nat) :
      ForkDesc a b → ForkDesc a (b.fork fresh)
  | fork_deadline (a b : Alive) (fresh d : Nat) :
      ForkDesc a b → ForkDesc a (b.fork_with_deadline fresh d)

theorem deadlineLE_refl (a : Option Nat) : deadlineLE a a := by
  cases a <;> simp [deadlineLE]

theorem fork_deadline_le (b : Alive) (fresh d : Nat) :
    deadlineLE (b.fork_with_deadline fresh d).deadline b.deadline := by
  cases b with
  | mk f p dl =>
    cases dl <;>
      simp [Alive.fork_with_deadline, Alive.deadline, deadlineLE, min_le_left]

theorem deadlineLE_trans (a b c : Option Nat)
    (hab : deadlineLE a b) (hbc : deadlineLE b c) : deadlineLE a c := by
  cases a <;> cases b <;> cases c <;> simp_all [deadlineLE]
  omega

/-- C3: `fork_with_deadline(d)` stores exactly the minimum of the
parent's deadline (infinite if absent) and `d`; `fork` stores the
parent's deadline unchanged; consequently along any chain of forks the
descendant's deadline is `deadlineLE` every ancestor's — it can tighten
but never loosen. -/
theorem alive_fork_deadline_spec (a b : Alive) (fresh d : Nat)
    (hdesc : ForkDesc a b) :
    (a.fork_with_deadline fresh d).deadline = some (specChildDeadline a.deadline d)
    ∧ (a.fork fresh).deadline = a.deadline
    ∧ deadlineLE b.deadline a.deadline := by
  refine ⟨?_, ?_, ?_⟩
  · cases a with
    | mk f p dl =>
      cases dl <;> simp [Alive.fork_with_deadline, Alive.deadline, specChildDeadline]
  · cases a with
    | mk f p dl => simp [Alive.fork, Alive.deadline]
  · induction hdesc with
    | refl => exact deadlineLE_refl _
    | fork c fresh2 hd ih =>
      have : (c.fork fresh2).deadline = c.deadline := by
        cases c with
        | mk f p dl => simp [Alive.fork, Alive.deadline]
      rw [this]
      exact ih
    | fork_deadline c fresh2 d2 hd ih =>
      exact deadlineLE_trans _ _ _ (fork_deadline_le c fresh2 d2) ih

/-- Witness for C3: a root with deadline 10, a grandchild forked with a
looser requested deadline 30 then a plain fork; the stored deadline
stays 10. -/
theorem alive_fork_deadline_spec_witness :
    ForkDesc (Alive.mk 0 none (some 10))
      (((Alive.mk 0 none (some 10)).fork_with_deadline 1 30).fork 2)
    ∧ deadlineLE ((((Alive.mk 0 none (some 10)).fork_with_deadline 1 30).fork 2).deadline)
        (Alive.mk 0 none (some 10)).deadline := by
  have hdesc : ForkDesc (Alive.mk 0 none (some 10))
      (((Alive.mk 0 none (some 10)).fork_with_deadline 1 30).fork 2) :=
    ForkDesc.fork _ _ 2 (ForkDesc.fork_deadline _ _ 1 30 (ForkDesc.refl _))
  exact ⟨hdesc,
    (alive_fork_deadline_spec (Alive.mk 0 none (some 10)) _ 5 7 hdesc).2.2⟩

/-- One subscriber channel of a `Dispatcher` (a capacity-1
`mpsc::sync_channel`), seen from both ends: whether each side is still
held, and the single buffered item if any. -/
structure Chan (T : Type) where
  senderConnected : Bool
  receiverConnected : Bool
  buf : Option T
deriving Repr, DecidableEq

/-- `Dispatcher::subscribe` (src/channel.rs lines 99-103): create a
capacity-1 channel (both ends held, empty buffer) and append its sender
to the list. -/
def Dispatcher.subscribe (l : List (Chan T)) : List (Chan T) :=
  l ++ [⟨true, true, none⟩]

/-- `Dispatcher::dispatch` (src/channel.rs lines 78-97): scan the
sender list from the front; `try_send` yields Disconnected when the
receiver end is dropped (entry removed, same index retried), Full when
the capacity-1 buffer is occupied (entry skipped), and Ok when the
buffer is free (item stored, return `None`); when the scan falls off
the end the item is handed back as `Some`. -/
def Dispatcher.dispatch (t : T) : List (Chan T) → List (Chan T) × Option T
  | [] => ([], some t)
  | c :: rest =>
    if !c.receiverConnected then Dispatcher.dispatch t rest
    else match c.buf with
      | some _ =>
        let r := Dispatcher.dispatch t rest
        (c :: r.1, r.2)
      | none => ({ c with buf := some t } :: rest, none)

theorem dispatch_none_iff (t : T) (l : List (Chan T)) :
    (Dispatcher.dispatch t l).2 = none
      ↔ ∃ c ∈ l, c.receiverConnected = true ∧ c.buf = none := by
  induction l with
  | nil => simp [Dispatcher.dispatch]
  | cons c rest ih =>
    by_cases hrc : c.receiverConnected
    · cases hbuf : c.buf with
      | some x =>
        simp only [Dispatcher.dispatch, hrc, Bool.not_true, hbuf]
        simp only [Bool.false_eq_true, if_false]
        rw [ih]
        constructor
        · rintro ⟨c2, hc2, h1, h2⟩
          exact ⟨c2, List.mem_cons_of_mem _ hc2, h1, h2⟩
        · rintro ⟨c2, hc2, h1, h2⟩
          rcases List.mem_cons.mp hc2 with rfl | hc2
          · rw [hbuf] at h2; cases h2
          · exact ⟨c2, hc2, h1, h2⟩
      | none =>
        simp only [Dispatcher.dispatch, hrc, Bool.not_true, hbuf]
        simp only [Bool.false_eq_true, if_false]
        constructor
        · intro _; exact ⟨c, List.mem_cons_self _ _, hrc, hbuf⟩
        · intro _; trivial
    · simp only [Dispatcher.dispatch, Bool.not_eq_true] at hrc ⊢
      rw [hrc]
      simp only [Bool.not_false, if_true]
      rw [ih]
      constructor
      · rintro ⟨c2, hc2, h1, h2⟩
        exact ⟨c2, List.mem_cons_of_mem _ hc2, h1, h2⟩
      · rintro ⟨c2, hc2, h1, h2⟩
        rcases List.mem_cons.mp hc2 with rfl | hc2
        · rw [hrc] at h1; cases h1
        · exact ⟨c2, hc2, h1, h2⟩

theorem dispatch_some_eq (t : T) (l : List (Chan T)) (x : T)
    (h : (Dispatcher.dispatch t l).2 = some x) : x = t := by
  induction l with
  | nil =>
    simp [Dispatcher.dispatch] at h
    exact h.symm
  | cons c rest ih =>
    by_cases hrc : c.receiverConnected
    · cases hbuf : c.buf with
      | some y =>
        simp only [Dispatcher.dispatch, hrc, Bool.not_true, hbuf,
          Bool.false_eq_true, if_false] at h
        exact ih h
      | none =>
        simp only [Dispatcher.dispatch, hrc, Bool.not_true, hbuf,
          Bool.false_eq_true, if_false] at h
        cases h
    · simp only [Dispatcher.dispatch, Bool.not_eq_true] at hrc
      rw [Dispatcher.dispatch, hrc] at h
      simp only [Bool.not_false, if_true] at h
      exact ih h

/-- C4: `dispatch` is a total function (never blocks, never fails);
it answers `none` exactly when some current subscriber is connected
with a free capacity-1 slot — in particular `some` whenever there are
zero subscribers or all are full/disconnected — and whatever item it
hands back is the one passed in, unchanged.  With exactly one
subscriber: a first dispatch is accepted into the slot, a second
dispatch before the slot is drained comes back as `some`, and once the
slot is drained a dispatch is accepted again. -/
theorem dispatcher_dispatch_spec (t A B : T) (l : List (Chan T)) (x : T)
    (hx : (Dispatcher.dispatch t l).2 = some x) :
    ((Dispatcher.dispatch t l).2 = none
       ↔ ∃ c ∈ l, c.receiverConnected = true ∧ c.buf = none)
    ∧ x = t
    ∧ Dispatcher.dispatch t [] = ([], some t)
    ∧ Dispatcher.dispatch A (Dispatcher.subscribe [])
        = ([⟨true, true, some A⟩], none)
    ∧ Dispatcher.dispatch B [⟨true, true, some A⟩]
        = ([⟨true, true, some A⟩], some B)
    ∧ Dispatcher.dispatch B [⟨true, true, none⟩]
        = ([⟨true, true, some B⟩], none) := by
  exact ⟨dispatch_none_iff t l, dispatch_some_eq t l x hx,
    rfl, rfl, rfl, rfl⟩

/-- Witness for C4 at concrete inputs: dispatching 7 to a single full
subscriber hands 7 back. -/
theorem dispatcher_dispatch_spec_witness :
    (Dispatcher.dispatch 7 [(⟨true, true, some 5⟩ : Chan Nat)]).2 = some 7
    ∧ ((Dispatcher.dispatch 7 [(⟨true, true, some 5⟩ : Chan Nat)]).2 = none
        ↔ ∃ c ∈ [(⟨true, true, some 5⟩ : Chan Nat)],
            c.receiverConnected = true ∧ c.buf = none) := by
  refine ⟨by decide, ?_⟩
  exact (dispatcher_dispatch_spec 7 1 2 [(⟨true, true, some 5⟩ : Chan Nat)] 7
    (by decide)).1

/-- Outcome of one `recv_timeout` call on an mpsc receiver. -/
inductive RecvResult (T : Type) where
  | ok (t : T)
  | timeout
  | disconnected
deriving Repr, DecidableEq

/-- `Alive::remain_time` (src/trace.rs lines 38-40): deadline minus
now, as a signed duration (`SignedDuration` modelled as `Int` ms). -/
def Alive.remain_time (now : Nat) (a : Alive) : Option Int :=
  a.deadline.map (fun d => (d : Int) - (now : Int))

/-- Modelled from the spec: `SignedDuration::duration` from `src/time.rs`,
which is not available; the spec's Clock contract has signed-duration
subtraction, and a signed duration converts to an unsigned wait only
when it is not negative. -/
def SignedDuration.duration (t : Int) : Option Nat :=
  if 0 ≤ t then some t.toNat else none

/-- The wait window of the single `recv_timeout` call in `Alive::recv`
(src/trace.rs lines 114-126): start from the 1-second cap and lower it
to the token's remaining time when that converts to a duration smaller
than the cap. -/
def Alive.recvTimeoutMs (now : Nat) (a : Alive) : Nat :=
  let maxSleep := 1000
  match a.remain_time now with
  | some t =>
    match SignedDuration.duration t with
    | some tt => if tt < maxSleep then tt else maxSleep
    | none => maxSleep
  | none => maxSleep

/-- `Alive::recv` (src/trace.rs lines 113-134). Every arm of the loop
body leaves the loop — `Err(Timeout)` breaks to the trailing
`Err(Timeout)`, anything else returns — so when the token is alive
exactly one `recv_timeout` call happens, over the `recvTimeoutMs`
window; `slice` is that call's outcome. A dead token yields the
timed-out outcome without touching the channel. -/
def Alive.recv (σ : FlagStore) (now : Nat) (a : Alive)
    (slice : RecvResult T) : RecvResult T :=
  if !(a.is_alive σ now) then .timeout
  else match slice with
    | .timeout => .timeout
    | .ok t => .ok t
    | .disconnected => .disconnected

/-- C5, counterexample: a live root token — flag true, no deadline,
never shut down — whose channel produces nothing inside the single wait
window gets the timed-out outcome from `recv`; the code does not keep
waiting while the token is alive and within its deadline. -/
theorem alive_recv_counterexample :
    (Alive.new 0).is_alive (fun _ => true) 0 = true
    ∧ Alive.recv (fun _ => true) 0 (Alive.new 0)
        (RecvResult.timeout : RecvResult Nat) = RecvResult.timeout :=
  ⟨rfl, rfl⟩

/-- C5 as amended: `recv` yields the timed-out outcome exactly when the
token is dead at the call or the single bounded wait elapsed with no
data; when the token is alive it returns whatever that single wait
produced (a value or disconnection); the wait window is at most
1 second, sliced to the token's remaining time when that is shorter. -/
theorem alive_recv_spec (σ : FlagStore) (now : Nat) (a : Alive)
    (slice : RecvResult T) (dl : Nat) (hdl : a.deadline = some dl)
    (hnow : now < dl) :
    (Alive.recv σ now a slice = .timeout
       ↔ (a.is_alive σ now = false ∨ slice = .timeout))
    ∧ (a.is_alive σ now = true → Alive.recv σ now a slice = slice)
    ∧ Alive.recvTimeoutMs now a ≤ 1000
    ∧ Alive.recvTimeoutMs now a = min (dl - now) 1000 := by
  have h1 : a.remain_time now = some ((dl : Int) - (now : Int)) := by
    simp [Alive.remain_time, hdl]
  have hwin : Alive.recvTimeoutMs now a = min (dl - now) 1000 := by
    have hge : (0 : Int) ≤ (dl : Int) - (now : Int) := by omega
    have htn : ((dl : Int) - (now : Int)).toNat = dl - now := by omega
    simp only [Alive.recvTimeoutMs, h1, SignedDuration.duration, if_pos hge, htn]
    by_cases hlt : dl - now < 1000
    · rw [if_pos hlt, Nat.min_def, if_pos (by omega)]
    · rw [if_neg hlt, Nat.min_def]
      by_cases hle : dl - now ≤ 1000
      · rw [if_pos hle]; omega
      · rw [if_neg hle]
  refine ⟨?_, ?_, ?_, hwin⟩
  · by_cases h : a.is_alive σ now
    · cases slice <;> simp [Alive.recv, h]
    · simp only [Bool.not_eq_true] at h
      simp [Alive.recv, h]
  · intro h
    cases slice <;> simp [Alive.recv, h]
  · rw [hwin]; omega

/-- Witness for C5 as amended: token with deadline 500 ms queried at
time 0; the wait window is 500 ms and a value in the slice is
returned. -/
theorem alive_recv_spec_witness :
    ((Alive.mk 0 none (some 500)).deadline = some 500 ∧ 0 < 500)
    ∧ Alive.recvTimeoutMs 0 (Alive.mk 0 none (some 500)) = min (500 - 0) 1000 := by
  refine ⟨⟨rfl, by decide⟩, ?_⟩
  exact (alive_recv_spec (fun _ => true) 0 (Alive.mk 0 none (some 500))
    (RecvResult.ok 42 : RecvResult Nat) 500 rfl (by decide)).2.2.2

/-- `RecvIter::next` (src/trace.rs lines 164-180): repeatedly call
`recv_timeout(poll)`; a received value is yielded, a disconnection ends
the sequence, and only in the poll-timeout arm is the token's liveness
consulted — there a dead token ends the sequence and a live one polls
again. The trace lists each poll's outcome paired with the token's
liveness at that poll's timeout check; the result is `none` when the
loop is still running past the end of the supplied trace. -/
def RecvIter.next : List (RecvResult T × Bool) → Option (Option T)
  | [] => none
  | (slice, aliveNow) :: rest =>
    match slice with
    | .ok t => some (some t)
    | .disconnected => some none
    | .timeout => if !aliveNow then some none else RecvIter.next rest

/-- `AliveIter` (src/trace.rs lines 182-185): the borrowed liveness
token plus the underlying iterator, modelled as its remaining items. -/
structure AliveIterSt (T : Type) where
  alive : Alive
  iter : List T

/-- `AliveIter::next` (src/trace.rs lines 187-196): `None` without
consuming anything when the token is dead, otherwise the underlying
iterator's next item. -/
def AliveIterSt.next (σ : FlagStore) (now : Nat) (it : AliveIterSt T) :
    Option T × AliveIterSt T :=
  if !(it.alive.is_alive σ now) then (none, it)
  else (it.iter.head?, { it with iter := it.iter.tail })

/-- `AliveIter::count` (src/trace.rs lines 201-206): delegates to the
underlying iterator's `count`; the token is never consulted. -/
def AliveIterSt.count (it : AliveIterSt T) : Nat := it.iter.length

/-- One `next` request on the sequence produced by `Alive::recv_iter`
(src/trace.rs lines 136-146): `recv_iter` wraps a `RecvIter` in an
`AliveIter`, so each element request goes through `AliveIter::next`
(src/trace.rs lines 187-196) — a dead token yields `None` before the
receiver is touched, a live token delegates to `RecvIter::next` over
the receiver's poll trace. -/
def Alive.recv_iter_next (σ : FlagStore) (now : Nat) (a : Alive)
    (trace : List (RecvResult T × Bool)) : Option (Option T) :=
  if !(a.is_alive σ now) then some none
  else RecvIter.next trace

/-- C6: every sequence produced by `Alive::iter` or `Alive::recv_iter`
goes through `AliveIter::next`, which checks liveness once per element
request: a token that is not alive at the request yields nothing (and
consumes nothing — even an item already sitting in the receiver is not
yielded), while a live token yields the underlying collection's next
item, respectively whatever the underlying receiver produces next. -/
theorem alive_recv_iter_spec (σ : FlagStore) (now : Nat)
    (it it2 : AliveIterSt T) (a b : Alive)
    (trace trace2 : List (RecvResult T × Bool))
    (hdead : it.alive.is_alive σ now = false)
    (hlive : it2.alive.is_alive σ now = true)
    (hdead2 : a.is_alive σ now = false)
    (hlive2 : b.is_alive σ now = true) :
    AliveIterSt.next σ now it = (none, it)
    ∧ AliveIterSt.next σ now it2 = (it2.iter.head?, { it2 with iter := it2.iter.tail })
    ∧ Alive.recv_iter_next σ now a trace = some none
    ∧ Alive.recv_iter_next σ now b trace2 = RecvIter.next trace2 := by
  refine ⟨by simp [AliveIterSt.next, hdead], by simp [AliveIterSt.next, hlive],
    by simp [Alive.recv_iter_next, hdead2], by simp [Alive.recv_iter_next, hlive2]⟩

/-- Witness for C6: a token past its deadline and a live root; the dead
token's `recv_iter` sequence yields nothing even though the receiver
has an item ready in its first poll slice. -/
theorem alive_recv_iter_spec_witness :
    ((AliveIterSt.mk (Alive.mk 0 none (some 0)) [3, 4]).alive.is_alive
        (fun _ => true) 5 = false
     ∧ (AliveIterSt.mk (Alive.new 1) [3, 4]).alive.is_alive (fun _ => true) 5 = true
     ∧ (Alive.mk 2 none (some 0)).is_alive (fun _ => true) 5 = false
     ∧ (Alive.new 3).is_alive (fun _ => true) 5 = true)
    ∧ Alive.recv_iter_next (fun _ => true) 5 (Alive.mk 2 none (some 0))
        [((RecvResult.ok 9 : RecvResult Nat), true)] = some none := by
  refine ⟨⟨rfl, rfl, rfl, rfl⟩, ?_⟩
  exact (alive_recv_iter_spec (fun _ => true) 5
    (AliveIterSt.mk (Alive.mk 0 none (some 0)) [3, 4])
    (AliveIterSt.mk (Alive.new 1) [3, 4])
    (Alive.mk 2 none (some 0)) (Alive.new 3)
    [((RecvResult.ok 9 : RecvResult Nat), true)] []
    rfl rfl rfl rfl).2.2.1

/-- One subscriber of a `Boardcast` (an unbounded mpsc channel):
whether its receiver is still held, and the items delivered to it so
far, in order. -/
structure BSub (T : Type) where
  connected : Bool
  received : List T
deriving Repr, DecidableEq

/-- `Boardcast` (src/channel.rs lines 6-10): the subscriber list and
the latest-value cell. -/
structure Boardcast (T : Type) where
  senders : List (BSub T)
  latest : Option T
deriving Repr, DecidableEq

/-- `Boardcast::new` (src/channel.rs lines 13-18). -/
def Boardcast.new : Boardcast T := ⟨[], none⟩

/-- `Boardcast::new_subscriber` (src/channel.rs lines 26-31): append a
fresh connected channel with nothing delivered yet. -/
def Boardcast.new_subscriber (b : Boardcast T) : Boardcast T :=
  { b with senders := b.senders ++ [⟨true, []⟩] }

/-- `Boardcast::get_latest` (src/channel.rs lines 33-36). -/
def Boardcast.get_latest (b : Boardcast T) : Option T := b.latest

/-- `Boardcast::clean` (src/channel.rs lines 60-64): swap the
subscriber list for an empty one; the latest cell is untouched. -/
def Boardcast.clean (b : Boardcast T) : Boardcast T :=
  { b with senders := [] }

/-- The sender loop of `Boardcast::boardcast` (src/channel.rs lines
44-52): walk the list by index; `send` fails exactly when the receiver
was dropped, in which case the entry is removed and the same index
retried; otherwise the clone of `item` is delivered and the index
advances. -/
def boardcastSend (item : T) : List (BSub T) → List (BSub T)
  | [] => []
  | s :: rest =>
    if s.connected
    then { s with received := s.received ++ [item] } :: boardcastSend item rest
    else boardcastSend item rest

/-- `Boardcast::boardcast` (src/channel.rs lines 42-58): run the sender
loop, then overwrite the latest cell with `item` unconditionally. -/
def Boardcast.boardcast (b : Boardcast T) (item : T) : Boardcast T :=
  ⟨boardcastSend item b.senders, some item⟩

/-- `Boardcast::new_with` (src/channel.rs lines 20-24): create and
immediately broadcast. -/
def Boardcast.new_with (item : T) : Boardcast T :=
  (Boardcast.new : Boardcast T).boardcast item

theorem boardcastSend_eq (item : T) (l : List (BSub T)) :
    boardcastSend item l
      = (l.filter (fun s => s.connected)).map
          (fun s => { s with received := s.received ++ [item] }) := by
  induction l with
  | nil => rfl
  | cons s rest ih =>
    by_cases hc : s.connected <;>
      simp [boardcastSend, List.filter_cons, hc, ih]

/-- C7: `boardcast(item)` delivers a copy of `item`, in list order, to
exactly the subscribers still connected at the call, pruning
disconnected entries as it scans, and overwrites the latest-value cell
with `item` unconditionally — with zero subscribers included — so
`get_latest` afterwards returns `item`; on a `Boardcast` that has never
broadcast (fresh, or after any subscriptions or `clean`s, which leave
the cell alone) `get_latest` returns `none`. -/
theorem boardcast_boardcast_spec (b : Boardcast T) (item : T) :
    (b.boardcast item).senders
      = (b.senders.filter (fun s => s.connected)).map
          (fun s => { s with received := s.received ++ [item] })
    ∧ (b.boardcast item).latest = some item
    ∧ (b.boardcast item).get_latest = some item
    ∧ (Boardcast.new : Boardcast T).get_latest = none
    ∧ b.new_subscriber.get_latest = b.get_latest
    ∧ b.clean.get_latest = b.get_latest :=
  ⟨boardcastSend_eq item b.senders, rfl, rfl, rfl, rfl, rfl⟩

/-- Modelled from the spec: `Dispatcher::close_write`, invoked by
`parallel` (src/thread.rs line 98) but defined outside the available
sources; per the spec it "releases all registered subscriber channels",
i.e. it drops every stored sender, closing each channel's sender
side. -/
def Dispatcher.close_write (l : List (Chan T)) : List (Chan T) :=
  l.map (fun c => { c with senderConnected := false })

/-- What a subscriber's blocking receive observes on its channel: a
buffered item when one is queued, otherwise permanent disconnection
when the sender side is closed, otherwise it keeps waiting. -/
def Chan.recvObserve (c : Chan T) : RecvResult T :=
  match c.buf with
  | some t => .ok t
  | none => if c.senderConnected then .timeout else .disconnected

/-- C8: after `close_write` every registered subscriber channel's
sender side is released, so each subscriber's receive side — once its
buffered item, if any, is drained — observes permanent disconnection,
which is the only "no more work is coming" signal the workers get. -/
theorem dispatcher_close_write_spec (l : List (Chan T)) (c : Chan T)
    (hc : c ∈ Dispatcher.close_write l) :
    c.senderConnected = false
    ∧ (c.buf = none → c.recvObserve = RecvResult.disconnected) := by
  rcases List.mem_map.mp hc with ⟨c0, _, rfl⟩
  refine ⟨rfl, ?_⟩
  intro hb
  have hb2 : c0.buf = none := hb
  simp [Chan.recvObserve, hb2]

/-- Witness for C8 on a one-subscriber dispatcher with an empty
buffer. -/
theorem dispatcher_close_write_spec_witness :
    ((⟨false, true, none⟩ : Chan Nat)
        ∈ Dispatcher.close_write [(⟨true, true, none⟩ : Chan Nat)])
    ∧ ((⟨false, true, none⟩ : Chan Nat).senderConnected = false
       ∧ ((⟨false, true, none⟩ : Chan Nat).buf = none →
            (⟨false, true, none⟩ : Chan Nat).recvObserve
              = RecvResult.disconnected)) :=
  ⟨by decide,
   dispatcher_close_write_spec [⟨true, true, none⟩] ⟨false, true, none⟩
     (by decide)⟩

/-- C9: `Clone` on `Alive` duplicates the fields, and `Arc::clone`
shares the same atomic flag — the clone is the same node — so shutting
the clone down stores false into the original's own flag and the
original (with every other clone) reports dead at every time; `fork`
instead allocates a fresh flag, so shutting a fork down leaves the
original's liveness untouched. `parallel` (src/thread.rs lines 61-83)
relies on this, handing each worker a clone of its private fork. -/
theorem alive_clone_spec (σ : FlagStore) (a : Alive) (now fresh : Nat)
    (hfresh : fresh ∉ a.chainFlags) :
    Alive.clone a = a
    ∧ a.is_alive (Alive.shutdown σ (Alive.clone a)) now = false
    ∧ (a.fork fresh).flagId ≠ a.flagId
    ∧ a.is_alive (Alive.shutdown σ (a.fork fresh)) now = a.is_alive σ now := by
  have hforkid : (a.fork fresh).flagId = fresh := by
    cases a with | mk f p d => simp [Alive.fork, Alive.flagId]
  refine ⟨rfl, ?_, ?_, ?_⟩
  · apply is_alive_false_of_chain_flag _ _ _ a.flagId (chainFlags_self_mem a)
    simp [Alive.clone, Alive.shutdown]
  · rw [hforkid]
    intro h
    exact hfresh (h ▸ chainFlags_self_mem a)
  · apply is_alive_congr
    intro i hi
    have hne : i ≠ (a.fork fresh).flagId := by
      rw [hforkid]
      intro h
      exact hfresh (h ▸ hi)
    simp [Alive.shutdown, hne]

/-- Witness for C9: shutting down a clone of the root with flag 0 kills
the root. -/
theorem alive_clone_spec_witness :
    (1 ∉ (Alive.new 0).chainFlags)
    ∧ (Alive.new 0).is_alive
        (Alive.shutdown (fun _ => true) (Alive.clone (Alive.new 0))) 0 = false :=
  ⟨by decide, (alive_clone_spec (fun _ => true) (Alive.new 0) 0 1 (by decide)).2.1⟩

/-- C10: `AliveIter::count` delegates to the underlying iterator with
no liveness check, so on a dead token it still returns the full number
of remaining underlying elements, while `next` on the same iterator
yields nothing. -/
theorem alive_iter_count_spec (σ : FlagStore) (now : Nat)
    (it : AliveIterSt T) (hdead : it.alive.is_alive σ now = false) :
    AliveIterSt.count it = it.iter.length
    ∧ (AliveIterSt.next σ now it).1 = none := by
  refine ⟨rfl, ?_⟩
  simp [AliveIterSt.next, hdead]

/-- Witness for C10: a token already past its deadline over a
three-element iterator still counts 3. -/
theorem alive_iter_count_spec_witness :
    ((AliveIterSt.mk (Alive.mk 0 none (some 0)) [1, 2, 3]).alive.is_alive
        (fun _ => true) 5 = false)
    ∧ AliveIterSt.count (AliveIterSt.mk (Alive.mk 0 none (some 0)) [1, 2, 3]) = 3 := by
  refine ⟨by decide, ?_⟩
  have h := (alive_iter_count_spec (fun _ => true) 5
    (AliveIterSt.mk (Alive.mk 0 none (some 0)) [1, 2, 3]) (by decide)).1
  simpa using h
